import Mathlib

/-!
Verification of the chemprop message-passing encoder (`mpn.py`, `MPNEncoder`)
and of the model facade (`chemprop/models/model.py`, `MoleculeModel.fingerprint`).

The numeric code is embedded shallowly over `ℚ` (an exact-arithmetic stand-in
for the tensor scalars).  Transcendental primitives that the claims never need
to evaluate numerically — the activation `σ`, the exponential used by softmax,
the LSTM gate sigmoid and tanh, and layer normalisation — are passed in as
explicit function parameters (`Prims`), so every definition stays computable
and concrete instances can be evaluated by `decide`.  Dropout is modelled in
eval mode (the identity), matching the claims, all of which assume dropout is
disabled.  Vectors are `List ℚ` and matrices row lists; `index_select_ND` is
the per-row gather with the (never exercised in-bounds) default of a zero
vector.
-/

namespace Chemprop

abbrev Vec := List ℚ

abbrev Mat := List (List ℚ)

/-- dot product of two rows (`(x * y).sum` in torch). -/
def dotQ (x y : Vec) : ℚ := (List.zipWith (fun a b => a * b) x y).sum

/-- a `torch.nn.Linear` layer: weight rows plus a bias vector.  A layer built
with `bias=False` simply carries the all-zero bias vector. -/
structure Linear where
  weight : Mat
  bias : Vec

/-- `Linear.apply l x` is `l.weight @ x + l.bias`. -/
def Linear.apply (l : Linear) (x : Vec) : Vec :=
  List.zipWith (fun r b => dotQ r x + b) l.weight l.bias

/-- elementwise application of a scalar function. -/
def vmap (f : ℚ → ℚ) (v : Vec) : Vec := v.map f

/-- elementwise sum of two vectors. -/
def vadd (x y : Vec) : Vec := List.zipWith (fun a b => a + b) x y

/-- elementwise product of two vectors. -/
def vmul (x y : Vec) : Vec := List.zipWith (fun a b => a * b) x y

/-- scalar multiple of a vector. -/
def smulQ (c : ℚ) (v : Vec) : Vec := v.map (fun x => c * x)

/-- the all-zero vector of width `n` (`torch.zeros(n)`). -/
def zvec (n : ℕ) : Vec := List.replicate n 0

/-- sum of a list of vectors of width `h` (`.sum(dim=...)`). -/
def vsum (h : ℕ) (vs : List Vec) : Vec := vs.foldl vadd (zvec h)

/-- matrix-vector product with no bias (used for the bias-free LSTM weights). -/
def matApply (m : Mat) (x : Vec) : Vec := m.map (fun r => dotQ r x)

/-- three-way `zipWith`, truncating to the shortest list. -/
def zip3With {α β γ δ : Type} (f : α → β → γ → δ) : List α → List β → List γ → List δ
  | a :: as, b :: bs, c :: cs => f a b c :: zip3With f as bs cs
  | _, _, _ => []

/-- `index_select_ND(message, graph)`: for every row of indices, gather the
corresponding message rows. -/
def gather (h : ℕ) (message : List Vec) (graph : List (List ℕ)) : List (List Vec) :=
  graph.map (fun row => row.map (fun idx => message.getD idx (zvec h)))

/-- row-wise softmax, parametric in the exponential `e` (`F.softmax`). -/
def softmax (e : ℚ → ℚ) (xs : List ℚ) : List ℚ :=
  let ws := xs.map e
  ws.map (fun w => w / ws.sum)

/-- the additive masking constant `-1e+20` of `mpn.py`. -/
def negBig : ℚ := -(10 ^ 20 : ℚ)

/-- `score * mask + (1 - mask) * (-1e+20)`, the masking arithmetic used by the
message-attention, global-attention and set2set score computations. -/
def maskedScore (s m : ℚ) : ℚ := s * m + (1 - m) * negBig

/-- entry of the message-attention mask `(bgraph != 0).float()`. -/
def maskVal (idx : ℕ) : ℚ := if idx ≠ 0 then 1 else 0

/-- whether bonds `i` and `j` fall in a common `bond_scope` range: this is
exactly the set of entries that the nested loops of `MPNEncoder.forward`
set to `1` in `global_attention_mask`. -/
def inSameMol (bscope : List (ℕ × ℕ)) (i j : ℕ) : Bool :=
  bscope.any (fun sl =>
    decide (sl.1 ≤ i) && decide (i < sl.1 + sl.2) &&
    decide (sl.1 ≤ j) && decide (j < sl.1 + sl.2))

/-- entry of `global_attention_mask`. -/
def gmaskVal (bscope : List (ℕ × ℕ)) (i j : ℕ) : ℚ :=
  if inSameMol bscope i j then 1 else 0

/-- the configuration fields of `Namespace args` that `MPNEncoder` reads.
`message_attention_heads` is realised by the length of the `W_ma` list of the
weights; `dropout` is eval-mode and has no numeric effect. -/
structure Args where
  hidden_size : ℕ
  depth : ℕ
  layer_norm : Bool
  attention : Bool
  message_attention : Bool
  global_attention : Bool
  master_node : Bool
  master_dim : ℕ
  use_master_as_output : Bool
  deepset : Bool
  set2set : Bool
  set2set_iters : ℕ
  activation : String

/-- the learned parameters of `MPNEncoder` (and its set2set LSTM, split into
its four bias-free input-to-hidden gate matrices; the hidden-to-hidden terms
vanish because each `set2set_rnn` call starts from the all-zero state). -/
structure Weights where
  W_i : Linear
  W_h : Linear
  W_ma : List Linear
  W_ga1 : Linear
  W_ga2 : Linear
  W_master_in : Linear
  W_master_out : Linear
  W_o : Linear
  W_a : Linear
  W_b : Linear
  W_s2s_a : Linear
  W_s2s_b : Linear
  lstm_Wi : Mat
  lstm_Wf : Mat
  lstm_Wg : Mat
  lstm_Wo : Mat

/-- the numeric primitives the encoder composes but never inspects:
activation `act`, softmax exponential `exp`, LSTM sigmoid `sg` and tanh `th`,
and layer normalisation `ln`. -/
structure Prims where
  act : ℚ → ℚ
  exp : ℚ → ℚ
  sg : ℚ → ℚ
  th : ℚ → ℚ
  ln : Vec → Vec

/-- a `BatchMolGraph` as unpacked by `MPNEncoder.forward`:
`fatoms, fbonds, agraph, bgraph, ascope, bscope`. -/
structure BatchGraph where
  fatoms : List Vec
  fbonds : List Vec
  agraph : List (List ℕ)
  bgraph : List (List ℕ)
  ascope : List (ℕ × ℕ)
  bscope : List (ℕ × ℕ)

/-- the rows stacked into `master_state`: one cached zero vector for the
padding bond 0, then, for every molecule with a nonzero bond count, `size`
copies of the mean over that molecule's `bond_scope` slice of `nei_message`
(molecules with `size == 0` are skipped by the `continue`). -/
def masterRows (h : ℕ) (neiMsg : List Vec) (bscope : List (ℕ × ℕ)) : List Vec :=
  zvec h ::
    (bscope.map (fun sl =>
      if sl.2 = 0 then []
      else List.replicate sl.2
        ((vsum h ((neiMsg.drop sl.1).take sl.2)).map (fun x => x / (sl.2 : ℚ))))).flatten

/-- one iteration of the message-passing loop (`for i in range(self.depth - 1)`).
The state is the current `message` together with the last `master_state`
assigned so far (`none` while the Python local is still unbound). -/
def roundStep (a : Args) (w : Weights) (p : Prims) (g : BatchGraph)
    (binput : List Vec) (st : List Vec × Option (List Vec)) :
    List Vec × Option (List Vec) :=
  let h := a.hidden_size
  let message := st.1
  let nei := gather h message g.bgraph
  let neiAgg : List Vec :=
    if a.message_attention then
      List.zipWith
        (fun rg m =>
          (w.W_ma.map (fun wma =>
            let scores := rg.2.map (fun nm => dotQ (wma.apply nm) m)
            let masked := List.zipWith (fun s idx => maskedScore s (maskVal idx)) scores rg.1
            let weights := softmax p.exp masked
            vsum h (List.zipWith smulQ weights rg.2))).flatten)
        (g.bgraph.zip nei) message
    else
      nei.map (fun gs => vsum h gs)
  let neiMsg := neiAgg.map w.W_h.apply
  let combined : List Vec × Option (List Vec) :=
    if a.master_node then
      let masterState := (masterRows h neiMsg g.bscope).map
        (fun v => vmap p.act (w.W_master_in.apply v))
      (zip3With (fun b n ms => vmap p.act (vadd (vadd b n) (w.W_master_out.apply ms)))
        binput neiMsg masterState,
       some masterState)
    else
      (List.zipWith (fun b n => vmap p.act (vadd b n)) binput neiMsg, st.2)
  let msgGA :=
    if a.global_attention then
      let n := combined.1.length
      let msgAt := fun j => combined.1.getD j (zvec h)
      List.zipWith
        (fun i m =>
          let qi := w.W_ga1.apply m
          let masked := (List.range n).map
            (fun j => maskedScore (dotQ qi (msgAt j)) (gmaskVal g.bscope i j))
          let weights := softmax p.exp masked
          let attHid := vsum h (List.zipWith smulQ weights ((List.range n).map msgAt))
          vadd m (vmap p.act (w.W_ga2.apply attHid)))
        (List.range n) combined.1
    else combined.1
  let msgLN := if a.layer_norm then msgGA.map p.ln else msgGA
  (msgLN, combined.2)

/-- `message = self.act_func(self.W_i(f_bonds))`, the initialization step. -/
def initialMessage (w : Weights) (p : Prims) (g : BatchGraph) : List Vec :=
  (g.fbonds.map w.W_i.apply).map (vmap p.act)

/-- the state after the whole message-passing loop: `depth - 1` applications
of `roundStep` starting from the initial messages with `master_state` unbound. -/
def loopState (a : Args) (w : Weights) (p : Prims) (g : BatchGraph) :
    List Vec × Option (List Vec) :=
  (roundStep a w p g (g.fbonds.map w.W_i.apply))^[a.depth - 1]
    (initialMessage w p g, none)

/-- atom aggregation: gather each atom's incoming bond messages via `agraph`,
sum them, concatenate with the raw atom features and apply `act ∘ W_o`
(dropout is eval-mode identity). -/
def atomHiddensOf (a : Args) (w : Weights) (p : Prims) (g : BatchGraph)
    (message : List Vec) : List Vec :=
  let neiSum := (gather a.hidden_size message g.agraph).map (vsum a.hidden_size)
  (List.zipWith (fun fa ns => fa ++ ns) g.fatoms neiSum).map
    (fun v => vmap p.act (w.W_o.apply v))

/-- error raised by `assert self.hidden_size == self.master_dim`. -/
def assertErr : String := "AssertionError: hidden_size == master_dim"

/-- error raised when the Python local `master_state` is read unassigned. -/
def unboundErr : String :=
  "UnboundLocalError: local variable master_state referenced before assignment"

/-- the `mol_vecs` loop of the master-as-output return path: the cached zero
vector for a zero-bond molecule, otherwise `master_state[start]` — which
raises if the local was never assigned. -/
def masterOutVecs (h : ℕ) (mst : Option (List Vec)) :
    List (ℕ × ℕ) → Except String (List Vec)
  | [] => .ok []
  | sl :: rest =>
    if sl.2 = 0 then
      (masterOutVecs h mst rest).map (fun vs => zvec h :: vs)
    else
      match mst with
      | none => .error unboundErr
      | some ms => (masterOutVecs h mst rest).map (fun vs => ms.getD sl.1 (zvec h) :: vs)

/-- the non-set2set readout loop: per molecule, the cached zero vector when
`size == 0`, otherwise optional self-attention, optional deep-set transform,
then sum over the molecule's atoms divided by `size`. -/
def meanReadout (a : Args) (w : Weights) (p : Prims) (ascope : List (ℕ × ℕ))
    (atomHiddens : List Vec) : List Vec :=
  let h := a.hidden_size
  ascope.map (fun sl =>
    if sl.2 = 0 then zvec h
    else
      let cur := (atomHiddens.drop sl.1).take sl.2
      let m1 :=
        if a.attention then
          let rows := cur.map (fun ci =>
            let scores := cur.map (fun cj => dotQ (w.W_a.apply ci) cj)
            let weights := softmax p.exp scores
            vsum h (List.zipWith smulQ weights cur))
          List.zipWith (fun c r => vadd c (vmap p.act (w.W_b.apply r))) cur rows
        else cur
      let m2 :=
        if a.deepset then m1.map (fun v => w.W_s2s_b.apply (vmap p.act (w.W_s2s_a.apply v)))
        else m1
      (vsum h m2).map (fun x => x / (sl.2 : ℚ)))

/-- one step of the bias-free `set2set_rnn` LSTM on input `x`, started (as in
every `self.set2set_rnn(attended)` call) from the all-zero hidden and cell
state: `h1 = o ⊙ tanh(f ⊙ c0 + i ⊙ g)` with `c0 = 0`. -/
def lstmStep (h : ℕ) (w : Weights) (p : Prims) (x : Vec) : Vec :=
  let i := vmap p.sg (matApply w.lstm_Wi x)
  let f := vmap p.sg (matApply w.lstm_Wf x)
  let gt := vmap p.th (matApply w.lstm_Wg x)
  let o := vmap p.sg (matApply w.lstm_Wo x)
  let c := vadd (vmul f (zvec h)) (vmul i gt)
  vmul o (vmap p.th c)

/-- one set2set iteration: masked attention of the query over each molecule's
memory rows, then one LSTM step on the attended vector. -/
def set2setStep (h : ℕ) (w : Weights) (p : Prims)
    (memMask : List (List Vec × List ℚ)) (query : List Vec) : List Vec :=
  List.zipWith
    (fun mm q =>
      let dots := mm.1.map (fun row => dotQ row q)
      let masked := List.zipWith (fun d m => maskedScore d m) dots mm.2
      let att := softmax p.exp masked
      let attended := vsum h (List.zipWith smulQ att mm.1)
      lstmStep h w p attended)
    memMask query

/-- the set2set readout: zero-padded per-molecule memory of width
`max(lengths)` (raising like Python `max` on an empty batch), atom mask,
all-ones initial query, and `set2set_iters` iterations of `set2setStep`. -/
def set2setReadout (a : Args) (w : Weights) (p : Prims) (ascope : List (ℕ × ℕ))
    (atomHiddens : List Vec) : Except String (List Vec) :=
  let h := a.hidden_size
  match (ascope.map (fun sl => sl.2)).max? with
  | none => .error "ValueError: max arg is an empty sequence"
  | some maxA =>
    let memory := ascope.map (fun sl =>
      (List.range maxA).map (fun j =>
        if j < sl.2 then atomHiddens.getD (sl.1 + j) (zvec h) else zvec h))
    let mask := ascope.map (fun sl =>
      (List.range maxA).map (fun j => if j < sl.2 then (1 : ℚ) else 0))
    let query0 : List Vec := ascope.map (fun _ => List.replicate h (1 : ℚ))
    .ok ((set2setStep h w p (memory.zip mask))^[a.set2set_iters] query0)

/-- `MPNEncoder.forward`: initialization, the `depth - 1` round loop, then
either the master-as-output return path (width assertion first, then the
`mol_vecs` loop over `bond_scope`) or atom aggregation followed by the
set2set or mean-family readout. -/
def mpnForward (a : Args) (w : Weights) (p : Prims) (g : BatchGraph) :
    Except String (List Vec) :=
  let h := a.hidden_size
  let st := loopState a w p g
  if a.master_node && a.use_master_as_output then
    if a.hidden_size = a.master_dim then
      masterOutVecs h st.2 g.bscope
    else .error assertErr
  else
    let atomHiddens := atomHiddensOf a w p g st.1
    if a.set2set then set2setReadout a w p g.ascope atomHiddens
    else .ok (meanReadout a w p g.ascope atomHiddens)

/-- the default configuration of the claims: no message attention, no master
node, no global attention, no layer norm, mean-pooling readout. -/
def plainArgs (hd d : ℕ) : Args :=
  { hidden_size := hd, depth := d, layer_norm := false, attention := false,
    message_attention := false, global_attention := false, master_node := false,
    master_dim := hd, use_master_as_output := false, deepset := false,
    set2set := false, set2set_iters := 0, activation := "ReLU" }

/-- Spec-side closed form of the default-configuration message recursion:
`message₀ = σ(W_i · bond_features)` and
`message_{t+1} = σ(W_i · bond_features + W_h(Σ of neighbor messages via
bond_graph))`, written directly from the specification text. -/
def specMessage (a : Args) (w : Weights) (p : Prims) (g : BatchGraph) : ℕ → List Vec
  | 0 => g.fbonds.map (fun f => vmap p.act (w.W_i.apply f))
  | t + 1 =>
    List.zipWith
      (fun f gs => vmap p.act (vadd (w.W_i.apply f)
        (w.W_h.apply (vsum a.hidden_size gs))))
      g.fbonds (gather a.hidden_size (specMessage a w p g t) g.bgraph)

/-- Spec-side closed form of the whole default-configuration encoder output:
`depth - 1` closed-form message rounds, the one-shot atom aggregation
`σ(W_o([atom_features, Σ incoming messages]))`, and mean pooling with the
zero-vector fallback for empty molecules. -/
def specOutput (a : Args) (w : Weights) (p : Prims) (g : BatchGraph) : List Vec :=
  let message := specMessage a w p g (a.depth - 1)
  let atomH := List.zipWith
    (fun fa gs => vmap p.act (w.W_o.apply (fa ++ vsum a.hidden_size gs)))
    g.fatoms (gather a.hidden_size message g.agraph)
  g.ascope.map (fun sl =>
    if sl.2 = 0 then zvec a.hidden_size
    else (vsum a.hidden_size ((atomH.drop sl.1).take sl.2)).map
      (fun x => x / (sl.2 : ℚ)))

/-- Modelled from the claim wording of C7: the master rows built from the mean
of the current bond `message`s (rather than of the `W_h`-projected aggregated
neighbor term `nei_message` that the code actually averages).  Used only to
compare the code against the claim. -/
def roundStepClaimMaster (a : Args) (w : Weights) (p : Prims) (g : BatchGraph)
    (binput : List Vec) (st : List Vec × Option (List Vec)) :
    List Vec × Option (List Vec) :=
  let h := a.hidden_size
  let message := st.1
  let nei := gather h message g.bgraph
  let neiAgg : List Vec := nei.map (fun gs => vsum h gs)
  let neiMsg := neiAgg.map w.W_h.apply
  let masterState := (masterRows h message g.bscope).map
    (fun v => vmap p.act (w.W_master_in.apply v))
  (zip3With (fun b n ms => vmap p.act (vadd (vadd b n) (w.W_master_out.apply ms)))
    binput neiMsg masterState,
   some masterState)

/-- `scope` tiles the bond indices starting at `n`: each molecule's range
begins where the previous one ended (the `BatchMolGraph` packing invariant;
index 0 is the padding bond, so real scopes tile from 1). -/
inductive Tiles : ℕ → List (ℕ × ℕ) → Prop
  | nil (n : ℕ) : Tiles n []
  | cons (n l : ℕ) (rest : List (ℕ × ℕ)) :
      Tiles (n + l) rest → Tiles n ((n, l) :: rest)

/-- the four activation modules `MPNEncoder.__init__` can construct. -/
inductive ActKind where
  | relu
  | leakyRelu
  | prelu
  | tanhK
deriving DecidableEq

/-- the activation dispatch of `MPNEncoder.__init__` (lines 89-98): the only
raise in the constructor. -/
def selectActivation (name : String) : Except String ActKind :=
  if name = "ReLU" then .ok .relu
  else if name = "LeakyReLU" then .ok .leakyRelu
  else if name = "PReLU" then .ok .prelu
  else if name = "tanh" then .ok .tanhK
  else .error ("Activation \"" ++ name ++ "\" not supported.")

/-- `MPNEncoder.__init__` as a fallible construction: every other statement of
the constructor only allocates sub-modules and caches the zero vector, so the
activation dispatch is its only failure point; in particular no master/hidden
width check happens here. -/
def mpnInit (a : Args) : Except String ActKind :=
  selectActivation a.activation

/-- the feed-forward head of `MoleculeModel`: either one `nn.Sequential`
(`create_ffn` / `create_ffn_from_tuple`) or the multi-branch form of
`create_multi_branch_ffn` — optional shared trunk plus an `nn.ModuleList`
of branch networks. -/
inductive FFNHead where
  | seqH : List (Vec → Vec) → FFNHead
  | multiBranch : Option (List (Vec → Vec)) → List (List (Vec → Vec)) → FFNHead

/-- `MoleculeModel` as far as `fingerprint` reads it: the encoder (abstract
over its input representation) and the feed-forward head. -/
structure MoleculeModel (α : Type) where
  encoder : α → Vec
  ffn : FFNHead

/-- sequential application of a layer list (`nn.Sequential.__call__`). -/
def applySeq (ls : List (Vec → Vec)) (v : Vec) : Vec :=
  ls.foldl (fun x f => f x) v

/-- error raised when `self.ffn[:-1]` — an `nn.ModuleList` slice — is called:
`nn.ModuleList` defines no `forward`, so the call fails. -/
def moduleListErr : String :=
  "NotImplementedError: ModuleList is missing the required forward function"

/-- `MoleculeModel.fingerprint` (model.py lines 280-287): `MPN` returns the
encoder output, `last_FFN` calls `self.ffn[:-1]` — which works for an
`nn.Sequential` head but fails on the `nn.ModuleList` of a multi-branch head —
and any other mode raises a `ValueError` before touching the encoder. -/
def MoleculeModel.fingerprint {α : Type} (m : MoleculeModel α)
    (fingerprint_type : String) (batch : α) : Except String Vec :=
  if fingerprint_type = "MPN" then .ok (m.encoder batch)
  else if fingerprint_type = "last_FFN" then
    match m.ffn with
    | .seqH layers => .ok (applySeq layers.dropLast (m.encoder batch))
    | .multiBranch _ _ => .error moduleListErr
  else .error ("Unsupported fingerprint type " ++ fingerprint_type ++ ".")

/-- rational ReLU, the default activation. -/
def reluQ (x : ℚ) : ℚ := max 0 x

/-- concrete primitives for evaluating witnesses and counterexamples: ReLU
activation, and surrogates for the transcendental functions that agree with
the real ones on every value these concrete runs reach (the constant-one
exponential only ever feeds softmax rows whose weights are independent of the
exponential; the identity shares tanh 0 = 0). -/
def pEval : Prims :=
  { act := reluQ, exp := fun _ => 1, sg := fun x => x, th := fun x => x, ln := id }

/-- a 1×1 linear layer. -/
def lin1 (a b : ℚ) : Linear := { weight := [[a]], bias := [b] }

/-- concrete hidden-size-1 weights: every projection is the 1×1 identity with
zero bias (`args.bias = False`), `W_o` sums its two inputs. -/
def w1 : Weights :=
  { W_i := lin1 1 0, W_h := lin1 1 0, W_ma := [lin1 1 0],
    W_ga1 := lin1 1 0, W_ga2 := lin1 1 0,
    W_master_in := lin1 1 0, W_master_out := lin1 1 0,
    W_o := { weight := [[1, 1]], bias := [0] },
    W_a := lin1 1 0, W_b := lin1 1 0, W_s2s_a := lin1 1 0, W_s2s_b := lin1 1 0,
    lstm_Wi := [[1]], lstm_Wf := [[1]], lstm_Wg := [[1]], lstm_Wo := [[1]] }

/-- an empty batch graph. -/
def gEmpty : BatchGraph :=
  { fatoms := [], fbonds := [], agraph := [], bgraph := [], ascope := [],
    bscope := [] }

/-- a batch of one 2-atom, 1-bond molecule (2 directed bonds), plus the
padding atom/bond at index 0.  `bgraph` rows are all padding because each
directed bond's only inverse-direction neighbour is its own reverse, which
`bond_graph` excludes. -/
def gOneBond : BatchGraph :=
  { fatoms := [[0], [0], [0]], fbonds := [[0], [1], [1]],
    agraph := [[0], [2], [1]], bgraph := [[0], [0], [0]],
    ascope := [(1, 2)], bscope := [(1, 2)] }

/-- `gOneBond` with the padding bond feature row 0 perturbed to `2`. -/
def gOneBondPerturbed : BatchGraph :=
  { gOneBond with fbonds := [[2], [1], [1]] }

/-- master-as-output configuration with mismatched widths (hidden 1, master 2),
depth 2. -/
def argsC4 : Args :=
  { plainArgs 1 2 with
      master_node := true
      use_master_as_output := true
      master_dim := 2 }

/-- master-as-output configuration with mismatched widths and depth 1. -/
def argsC9 : Args :=
  { plainArgs 1 1 with
      master_node := true
      use_master_as_output := true
      master_dim := 2 }

/-- master-as-output configuration with matching widths and depth 1. -/
def argsC9m : Args :=
  { plainArgs 1 1 with
      master_node := true
      use_master_as_output := true
      master_dim := 1 }

/-- default configuration plus message attention, depth 2. -/
def argsC5 : Args := { plainArgs 1 2 with message_attention := true }

/-- `w1` with a nonzero bias on `W_i` (an `args.bias = True` configuration). -/
def wBias : Weights := { w1 with W_i := lin1 1 1 }

/-- default configuration plus the master aggregator, depth 2. -/
def argsC7 : Args := { plainArgs 1 2 with master_node := true }

/-- a one-molecule, two-directed-bond batch whose real bond features are 2
and 4 (so the bond messages differ from the aggregated neighbor terms). -/
def gC7 : BatchGraph :=
  { fatoms := [[0], [0], [0]], fbonds := [[0], [2], [4]],
    agraph := [[0], [2], [1]], bgraph := [[0], [0], [0]],
    ascope := [(1, 2)], bscope := [(1, 2)] }

/-- a batch containing one zero-atom, zero-bond molecule (only the padding
atom and bond rows exist). -/
def gNoBond : BatchGraph :=
  { fatoms := [[0]], fbonds := [[0]], agraph := [[0]], bgraph := [[0]],
    ascope := [(1, 0)], bscope := [(1, 0)] }

/-- master-as-output configuration with matching widths and depth 2. -/
def argsC3a : Args :=
  { plainArgs 1 2 with
      master_node := true
      use_master_as_output := true
      master_dim := 1 }

/-- set2set configuration with one iteration. -/
def argsC3c : Args :=
  { plainArgs 1 1 with
      set2set := true
      set2set_iters := 1 }

/-- set2set configuration with zero iterations. -/
def argsC3z : Args :=
  { plainArgs 1 1 with
      set2set := true
      set2set_iters := 0 }

/-! ## Theorems -/

/-- in a configuration with no message attention, no master node, no global
attention and no layer norm, one round is exactly
`message = act(binput + W_h(Σ of gathered neighbor messages))`. -/
theorem roundStep_plain (a : Args) (w : Weights) (p : Prims) (g : BatchGraph)
    (binput : List Vec) (msg : List Vec) (mst : Option (List Vec))
    (hma : a.message_attention = false) (hmn : a.master_node = false)
    (hga : a.global_attention = false) (hln : a.layer_norm = false) :
    roundStep a w p g binput (msg, mst) =
      (List.zipWith (fun b n => vmap p.act (vadd b n)) binput
        (((gather a.hidden_size msg g.bgraph).map (vsum a.hidden_size)).map
          w.W_h.apply),
       mst) := by
  simp [roundStep, hma, hmn, hga, hln]

/-- in the default configuration, the message-passing loop computes the
spec's closed-form message recursion. -/
theorem plain_loopState (hd d : ℕ) (w : Weights) (p : Prims) (g : BatchGraph)
    (t : ℕ) :
    (roundStep (plainArgs hd d) w p g (g.fbonds.map w.W_i.apply))^[t]
      (initialMessage w p g, none) =
    (specMessage (plainArgs hd d) w p g t, none) := by
  induction t with
  | zero =>
    simp [initialMessage, specMessage, List.map_map, Function.comp]
  | succ t ih =>
    rw [Function.iterate_succ_apply', ih,
      roundStep_plain _ _ _ _ _ _ _ rfl rfl rfl rfl]
    refine Prod.ext ?_ rfl
    show List.zipWith _ (g.fbonds.map w.W_i.apply) _ = specMessage _ w p g (t + 1)
    rw [List.map_map, List.zipWith_map, specMessage]
    rfl

/-- C1: in the default configuration (no message attention, no master node,
no global attention, no layer norm, eval-mode dropout), the encoder output
equals the spec's closed-form composition: messages are initialised as
`σ(W_i · bond_features)`, every round replaces them with
`σ(W_i · bond_features + W_h(Σ of neighbor messages via bond_graph))`, and
the output is mean pooling of the one-shot atom aggregation. -/
theorem claim_C1 (hd d : ℕ) (w : Weights) (p : Prims) (g : BatchGraph) :
    mpnForward (plainArgs hd d) w p g = .ok (specOutput (plainArgs hd d) w p g) := by
  have hl : loopState (plainArgs hd d) w p g =
      (specMessage (plainArgs hd d) w p g (d - 1), none) :=
    plain_loopState hd d w p g (d - 1)
  have hb : ((plainArgs hd d).master_node &&
      (plainArgs hd d).use_master_as_output) = false := rfl
  have hs : (plainArgs hd d).set2set = false := rfl
  have hat : (plainArgs hd d).attention = false := rfl
  have hds : (plainArgs hd d).deepset = false := rfl
  simp only [mpnForward, hb, Bool.false_eq_true, if_false, hs, hl]
  refine congrArg Except.ok ?_
  simp only [meanReadout, atomHiddensOf, specOutput, hat, hds,
    Bool.false_eq_true, if_false, List.map_zipWith, List.zipWith_map_right]
  rfl

/-- C2: the loop runs exactly `depth - 1` rounds: with depth 1 the messages
after the loop are the initial messages untouched (no neighbor aggregation),
each unit increase of depth (from any depth ≥ 1) applies exactly one more
round, and with depth 1 the forward output is mean-family readout of the
one-shot atom aggregation applied directly to the initial bond projections. -/
theorem claim_C2 :
    (∀ (a : Args) (w : Weights) (p : Prims) (g : BatchGraph),
      a.depth = 1 → (loopState a w p g).1 = initialMessage w p g) ∧
    (∀ (a : Args) (w : Weights) (p : Prims) (g : BatchGraph) (d : ℕ), 1 ≤ d →
      loopState { a with depth := d + 1 } w p g =
        roundStep a w p g (g.fbonds.map w.W_i.apply)
          (loopState { a with depth := d } w p g)) ∧
    (∀ (a : Args) (w : Weights) (p : Prims) (g : BatchGraph),
      a.depth = 1 → (a.master_node && a.use_master_as_output) = false →
      a.set2set = false →
      mpnForward a w p g =
        .ok (meanReadout a w p g.ascope
          (atomHiddensOf a w p g (initialMessage w p g)))) := by
  refine ⟨?_, ?_, ?_⟩
  · intro a w p g hd
    simp [loopState, hd]
  · intro a w p g d hd
    have hfun : roundStep { a with depth := d + 1 } w p g
        (g.fbonds.map w.W_i.apply) = roundStep a w p g
        (g.fbonds.map w.W_i.apply) := rfl
    have hfun' : roundStep { a with depth := d } w p g
        (g.fbonds.map w.W_i.apply) = roundStep a w p g
        (g.fbonds.map w.W_i.apply) := rfl
    obtain ⟨d, rfl⟩ : ∃ e, d = e + 1 := ⟨d - 1, by omega⟩
    simp only [loopState, hfun, hfun']
    rw [show (d + 1 + 1 - 1) = (d + 1 - 1) + 1 by omega,
      Function.iterate_succ_apply']
  · intro a w p g hd hb hs
    have hst : loopState a w p g = (initialMessage w p g, none) := by
      simp [loopState, hd]
    simp [mpnForward, hb, hs, hst]

/-- a dot product with the zero vector vanishes, whatever the widths. -/
theorem dotQ_zvec (r : Vec) (n : ℕ) : dotQ r (zvec n) = 0 := by
  induction r generalizing n with
  | nil => simp [dotQ]
  | cons a r ih =>
    cases n with
    | zero => simp [dotQ, zvec]
    | succ m =>
      simpa [dotQ, zvec, List.replicate_succ] using ih m

/-- weight rows dotted with a zero input, plus a zero bias list, give zeros. -/
theorem zipWith_dotQ_bias (n : ℕ) (ws : Mat) (m : ℕ) :
    List.zipWith (fun r b => dotQ r (zvec n) + b) ws (zvec m) =
      zvec (min ws.length m) := by
  induction ws generalizing m with
  | nil => simp [zvec]
  | cons r ws ih =>
    cases m with
    | zero => simp [zvec]
    | succ m' =>
      show (dotQ r (zvec n) + 0) :: List.zipWith _ ws (zvec m') = _
      rw [dotQ_zvec, add_zero, ih m']
      show zvec (min ws.length m' + 1) = zvec (min (ws.length + 1) (m' + 1))
      rw [Nat.succ_min_succ]

/-- a linear layer with zero bias and `h` output rows maps any zero vector to
the zero vector of width `h`. -/
theorem Linear.apply_zvec (l : Linear) (h n : ℕ) (hb : l.bias = zvec h)
    (hw : l.weight.length = h) : l.apply (zvec n) = zvec h := by
  rw [Linear.apply, hb, zipWith_dotQ_bias, hw, Nat.min_self]

/-- elementwise application of a zero-fixing function preserves the zero
vector. -/
theorem vmap_zvec (f : ℚ → ℚ) (hf : f 0 = 0) (n : ℕ) :
    vmap f (zvec n) = zvec n := by
  simp [vmap, zvec, hf]

/-- the zero vector is additively idempotent. -/
theorem vadd_zvec (n : ℕ) : vadd (zvec n) (zvec n) = zvec n := by
  simp [vadd, zvec]

/-- any scalar multiple of the zero vector is the zero vector. -/
theorem smulQ_zvec (c : ℚ) (n : ℕ) : smulQ c (zvec n) = zvec n := by
  simp [smulQ, zvec]

/-- summing any number of zero vectors of width `h` gives the zero vector. -/
theorem vsum_replicate_zvec (h k : ℕ) :
    vsum h (List.replicate k (zvec h)) = zvec h := by
  induction k with
  | zero => rfl
  | succ k ih =>
    simpa [vsum, List.replicate_succ, vadd_zvec] using ih

/-- attention-weighting a list of zero vectors gives zero vectors, whatever
the weights. -/
theorem zipWith_smulQ_replicate (ws : List ℚ) (k h : ℕ) :
    List.zipWith smulQ ws (List.replicate k (zvec h)) =
      List.replicate (min ws.length k) (zvec h) := by
  induction ws generalizing k with
  | nil => simp
  | cons c ws ih =>
    cases k with
    | zero => simp
    | succ k' =>
      simp [List.replicate_succ, smulQ_zvec, ih k', Nat.succ_min_succ]

/-- the attention-weighted sum over any number of zero-vector rows is the
zero vector (whatever the attention weights). -/
theorem vsum_zipWith_smulQ_zvec (ws : List ℚ) (k h : ℕ) :
    vsum h (List.zipWith smulQ ws (List.replicate k (zvec h))) = zvec h := by
  rw [zipWith_smulQ_replicate, vsum_replicate_zvec]

/-- witness for C2 at the concrete one-bond batch. -/
theorem claim_C2_witness :
    ((plainArgs 1 1).depth = 1 ∧
      (loopState (plainArgs 1 1) w1 pEval gOneBond).1 =
        initialMessage w1 pEval gOneBond) ∧
    ((1 : ℕ) ≤ 1 ∧
      loopState { plainArgs 1 1 with depth := 1 + 1 } w1 pEval gOneBond =
        roundStep (plainArgs 1 1) w1 pEval gOneBond
          (gOneBond.fbonds.map w1.W_i.apply)
          (loopState { plainArgs 1 1 with depth := 1 } w1 pEval gOneBond)) ∧
    mpnForward (plainArgs 1 1) w1 pEval gOneBond =
      .ok (meanReadout (plainArgs 1 1) w1 pEval gOneBond.ascope
        (atomHiddensOf (plainArgs 1 1) w1 pEval gOneBond
          (initialMessage w1 pEval gOneBond))) :=
  ⟨⟨rfl, claim_C2.1 (plainArgs 1 1) w1 pEval gOneBond rfl⟩,
   ⟨by decide, claim_C2.2.1 (plainArgs 1 1) w1 pEval gOneBond 1 (by decide)⟩,
   claim_C2.2.2 (plainArgs 1 1) w1 pEval gOneBond rfl rfl rfl⟩

/-- the `mol_vecs` loop of the master-as-output path raises the
unbound-local error as soon as some molecule has a nonzero bond count and
`master_state` was never assigned. -/
theorem masterOutVecs_none_err (h : ℕ) (scope : List (ℕ × ℕ))
    (hb : ∃ sl ∈ scope, 0 < sl.2) :
    masterOutVecs h none scope = .error unboundErr := by
  induction scope with
  | nil => simp at hb
  | cons sl rest ih =>
    obtain ⟨x, hx, hpos⟩ := hb
    by_cases hz : sl.2 = 0
    · have hr : ∃ y ∈ rest, 0 < y.2 := by
        rcases List.mem_cons.mp hx with hx | hx
        · subst hx; omega
        · exact ⟨x, hx, hpos⟩
      simp [masterOutVecs, hz, ih hr, Except.map]
    · simp [masterOutVecs, hz]

/-- C8: an unsupported activation name makes `MPNEncoder.__init__` raise its
descriptive `ValueError`, and an unsupported fingerprint type makes
`MoleculeModel.fingerprint` raise its descriptive `ValueError`; in both cases
the error depends only on the offending name, so no numeric computation is
performed for the request. -/
theorem claim_C8 :
    (∀ a : Args, a.activation ≠ "ReLU" → a.activation ≠ "LeakyReLU" →
      a.activation ≠ "PReLU" → a.activation ≠ "tanh" →
      mpnInit a = .error ("Activation \"" ++ a.activation ++ "\" not supported.")) ∧
    (∀ (α : Type) (m : MoleculeModel α) (batch : α) (ft : String),
      ft ≠ "MPN" → ft ≠ "last_FFN" →
      m.fingerprint ft batch =
        .error ("Unsupported fingerprint type " ++ ft ++ ".")) := by
  constructor
  · intro a h1 h2 h3 h4
    simp [mpnInit, selectActivation, h1, h2, h3, h4]
  · intro α m batch ft h1 h2
    simp [MoleculeModel.fingerprint, h1, h2]

/-- witness for C8 at the concrete names `foo` and `bar`. -/
theorem claim_C8_witness :
    mpnInit { plainArgs 1 1 with activation := "foo" } =
      .error ("Activation \"" ++ "foo" ++ "\" not supported.") ∧
    (MoleculeModel.mk (fun _ : Unit => []) (.seqH [])).fingerprint "bar" () =
      .error ("Unsupported fingerprint type " ++ "bar" ++ ".") :=
  ⟨claim_C8.1 _ (by decide) (by decide) (by decide) (by decide),
   claim_C8.2 Unit _ () "bar" (by decide) (by decide)⟩

/-- C10: on a model whose head is the multi-branch `nn.ModuleList`, the
`last_FFN` fingerprint always fails (the `self.ffn[:-1]` slice is a
`ModuleList`, which cannot be called), the `MPN` fingerprint returns the
encoder output, and no fingerprint type other than `MPN` can succeed. -/
theorem claim_C10 :
    (∀ (α : Type) (enc : α → Vec) (sh : Option (List (Vec → Vec)))
       (brs : List (List (Vec → Vec))) (batch : α),
      (MoleculeModel.mk enc (.multiBranch sh brs)).fingerprint "last_FFN" batch =
        .error moduleListErr ∧
      (MoleculeModel.mk enc (.multiBranch sh brs)).fingerprint "MPN" batch =
        .ok (enc batch)) ∧
    (∀ (α : Type) (enc : α → Vec) (sh : Option (List (Vec → Vec)))
       (brs : List (List (Vec → Vec))) (batch : α) (ft : String) (v : Vec),
      (MoleculeModel.mk enc (.multiBranch sh brs)).fingerprint ft batch = .ok v →
      ft = "MPN") := by
  constructor
  · intro α enc sh brs batch
    exact ⟨rfl, rfl⟩
  · intro α enc sh brs batch ft v hok
    by_cases hm : ft = "MPN"
    · exact hm
    · by_cases hl : ft = "last_FFN" <;>
        simp [MoleculeModel.fingerprint, hm, hl] at hok

/-- witness for C10: the `MPN` branch of the third conjunct at a concrete
model. -/
theorem claim_C10_witness :
    (MoleculeModel.mk (fun _ : Unit => []) (.multiBranch none [])).fingerprint
        "MPN" () = .ok [] ∧ "MPN" = "MPN" :=
  ⟨rfl, claim_C10.2 Unit (fun _ => []) none [] () "MPN" [] rfl⟩

/-- C4 fails on the code: with master-as-output requested and mismatched
master/hidden widths, `MPNEncoder.__init__` completes without raising — no
width check exists before the forward pass, so no configuration error is
raised before computation. -/
theorem claim_C4_counterexample : mpnInit argsC4 = .ok .relu := rfl

/-- C4 amended: the mismatched-width error is raised, but only inside
`forward` — by the `assert self.hidden_size == self.master_dim` that runs
after the message-passing loop — not at construction time. -/
theorem claim_C4_amended (a : Args) (w : Weights) (p : Prims) (g : BatchGraph)
    (hm : a.master_node = true) (hu : a.use_master_as_output = true)
    (hne : a.hidden_size ≠ a.master_dim) :
    mpnForward a w p g = .error assertErr := by
  simp [mpnForward, hm, hu, hne]

/-- witness for the amended C4 at the concrete mismatched configuration. -/
theorem claim_C4_amended_witness :
    argsC4.master_node = true ∧ argsC4.hidden_size ≠ argsC4.master_dim ∧
    mpnForward argsC4 w1 pEval gEmpty = .error assertErr :=
  ⟨rfl, by decide, claim_C4_amended argsC4 w1 pEval gEmpty rfl rfl (by decide)⟩

/-- C9 fails as stated: in its hypotheses nothing forces the master width to
equal the hidden width, and when they differ the forward pass with depth 1
fails with the width `AssertionError` — which fires before the `mol_vecs`
loop ever reads `master_state` — not with the unbound-variable error. -/
theorem claim_C9_counterexample :
    mpnForward argsC9 w1 pEval gOneBond = .error assertErr ∧
      assertErr ≠ unboundErr :=
  ⟨rfl, by decide⟩

/-- C9 amended: with the master aggregator enabled, master-as-output, depth 1
and matching master/hidden widths, any batch containing a molecule with a
nonzero bond count makes the forward pass fail with the unbound-local error:
`master_state` is assigned only inside the `depth - 1` round loop, which runs
zero times. -/
theorem claim_C9_amended (a : Args) (w : Weights) (p : Prims) (g : BatchGraph)
    (hm : a.master_node = true) (hu : a.use_master_as_output = true)
    (hd : a.depth = 1) (hw : a.hidden_size = a.master_dim)
    (hb : ∃ sl ∈ g.bscope, 0 < sl.2) :
    mpnForward a w p g = .error unboundErr := by
  have hst : loopState a w p g = (initialMessage w p g, none) := by
    simp [loopState, hd]
  simp [mpnForward, hm, hu, hw, hst, masterOutVecs_none_err _ _ hb]

/-- witness for the amended C9 at a concrete one-bond batch. -/
theorem claim_C9_amended_witness :
    argsC9m.depth = 1 ∧ argsC9m.hidden_size = argsC9m.master_dim ∧
    (∃ sl ∈ gOneBond.bscope, 0 < sl.2) ∧
    mpnForward argsC9m w1 pEval gOneBond = .error unboundErr :=
  ⟨rfl, rfl, ⟨(1, 2), by decide, by decide⟩,
   claim_C9_amended argsC9m w1 pEval gOneBond rfl rfl rfl rfl
     ⟨(1, 2), by decide, by decide⟩⟩

/-- C5 fails on the code in exact arithmetic: the padded positions' masked
scores are `-1e20`, whose softmax weight is strictly positive, so perturbing
the padded feature row 0 changes a real molecule's output.  Here each bond's
only `bond_graph` neighbor slot is the padding index 0, so its attention row
is a singleton and the padding message receives softmax weight exactly 1
(whatever the exponential): changing `f_bonds[0]` from 0 to 2 moves the
encoder output of the real molecule from 1 to 3. -/
theorem claim_C5_counterexample :
    mpnForward argsC5 w1 pEval gOneBond = .ok [[1]] ∧
    mpnForward argsC5 w1 pEval gOneBondPerturbed = .ok [[3]] ∧
    gOneBond.fatoms = gOneBondPerturbed.fatoms ∧
    gOneBond.fbonds.tail = gOneBondPerturbed.fbonds.tail :=
  ⟨by with_unfolding_all rfl, by with_unfolding_all rfl, rfl, rfl⟩

/-- C5 amended: padding positions (neighbor index 0 for message attention,
cross-molecule pairs for global attention) have their pre-softmax scores
forced to exactly the constant `-1e20`, independently of the padded content;
after softmax they keep a strictly positive weight (the spec's "negligible
but strictly positive" policy), so exact two-run noninterference does not
hold — the padded weight only vanishes in floating-point underflow. -/
theorem claim_C5_amended :
    (∀ s : ℚ, maskedScore s (maskVal 0) = negBig) ∧
    (∀ (bscope : List (ℕ × ℕ)) (i j : ℕ) (s : ℚ), inSameMol bscope i j = false →
      maskedScore s (gmaskVal bscope i j) = negBig) ∧
    (∀ (e : ℚ → ℚ) (xs : List ℚ), (∀ x, 0 < e x) →
      ∀ q ∈ softmax e xs, 0 < q) := by
  refine ⟨?_, ?_, ?_⟩
  · intro s
    simp [maskedScore, maskVal]
  · intro bscope i j s hx
    simp [maskedScore, gmaskVal, hx]
  · intro e xs hpos q hq
    simp only [softmax] at hq
    obtain ⟨v, hv, rfl⟩ := List.mem_map.mp hq
    obtain ⟨x, hx, rfl⟩ := List.mem_map.mp hv
    refine div_pos (hpos x) (List.sum_pos _ (fun y hy => ?_) ?_)
    · obtain ⟨z, _, rfl⟩ := List.mem_map.mp hy
      exact hpos z
    · intro hnil
      rw [List.map_eq_nil_iff] at hnil
      subst hnil
      simp at hx

/-- witness for the amended C5 at concrete scores and a concrete softmax. -/
theorem claim_C5_amended_witness :
    maskedScore 5 (maskVal 0) = negBig ∧
    (inSameMol [] 0 1 = false ∧ maskedScore 7 (gmaskVal [] 0 1) = negBig) ∧
    ((∀ x : ℚ, 0 < (1 : ℚ)) ∧ (1 : ℚ) ∈ softmax (fun _ => 1) [0] ∧
      (0 : ℚ) < 1) :=
  ⟨claim_C5_amended.1 5, ⟨rfl, claim_C5_amended.2.1 [] 0 1 7 rfl⟩,
   ⟨fun _ => by norm_num, by with_unfolding_all decide,
    claim_C5_amended.2.2 (fun _ => 1) [0] (fun _ => by norm_num) 1
      (by with_unfolding_all decide)⟩⟩

/-- C6 fails on the code as stated "in every configuration": with the
`args.bias = True` configuration, `W_i` carries a bias, and even with a zero
padding feature row the index-0 message is `σ(0 + bias) ≠ 0` already after
initialization. -/
theorem claim_C6_counterexample :
    (initialMessage wBias pEval gOneBond)[0]? = some [1] ∧
      ([1] : Vec) ≠ zvec 1 :=
  ⟨by with_unfolding_all rfl, by with_unfolding_all decide⟩

/-- a round of message passing keeps the index-0 message at the zero vector,
in any configuration without master node, global attention or layer norm,
provided `W_h` has zero bias, the activation fixes 0, and `bgraph` row 0 is
all padding (message attention is allowed: the padding row's attention
weights multiply zero vectors). -/
theorem roundStep_zero_preserved (a : Args) (w : Weights) (p : Prims)
    (g : BatchGraph) (binput : List Vec) (st : List Vec × Option (List Vec))
    (hmn : a.master_node = false) (hga : a.global_attention = false)
    (hln : a.layer_norm = false)
    (hhb : w.W_h.bias = zvec a.hidden_size)
    (hhw : w.W_h.weight.length = a.hidden_size)
    (hact : p.act 0 = 0)
    (k : ℕ) (hg0 : g.bgraph[0]? = some (List.replicate k 0))
    (hb0 : binput[0]? = some (zvec a.hidden_size))
    (hm0 : st.1[0]? = some (zvec a.hidden_size)) :
    (roundStep a w p g binput st).1[0]? = some (zvec a.hidden_size) := by
  have hnei0 : (gather a.hidden_size st.1 g.bgraph)[0]? =
      some (List.replicate k (zvec a.hidden_size)) := by
    rw [gather, List.getElem?_map, hg0, Option.map_some', List.map_replicate]
    have hd : st.1.getD 0 (zvec a.hidden_size) = zvec a.hidden_size := by
      simp [hm0]
    rw [hd]
  simp only [roundStep, hmn, hga, hln, Bool.false_eq_true, if_false]
  by_cases hma : a.message_attention = true
  · simp only [hma, if_true]
    have hAgg : ((List.zipWith
        (fun rg m =>
          (w.W_ma.map (fun wma =>
            let scores := rg.2.map (fun nm => dotQ (wma.apply nm) m)
            let masked := List.zipWith (fun s idx => maskedScore s (maskVal idx))
              scores rg.1
            let weights := softmax p.exp masked
            vsum a.hidden_size (List.zipWith smulQ weights rg.2))).flatten)
        (g.bgraph.zip (gather a.hidden_size st.1 g.bgraph)) st.1).map
          w.W_h.apply)[0]? = some (zvec a.hidden_size) := by
      rw [List.getElem?_map, List.getElem?_zipWith',
        (@List.getElem?_zip_eq_some _ _ g.bgraph
          (gather a.hidden_size st.1 g.bgraph)
          (List.replicate k 0, List.replicate k (zvec a.hidden_size)) 0).mpr
          ⟨hg0, hnei0⟩, hm0]
      simp only [Option.map_some', Option.some_bind]
      have hhead : (w.W_ma.map (fun wma =>
          vsum a.hidden_size (List.zipWith smulQ
            (softmax p.exp (List.zipWith
              (fun s idx => maskedScore s (maskVal idx))
              ((List.replicate k (zvec a.hidden_size)).map
                (fun nm => dotQ (wma.apply nm) (zvec a.hidden_size)))
              (List.replicate k 0)))
            (List.replicate k (zvec a.hidden_size))))).flatten =
          zvec (w.W_ma.length * a.hidden_size) := by
        have hone : ∀ wma : Linear, vsum a.hidden_size (List.zipWith smulQ
            (softmax p.exp (List.zipWith
              (fun s idx => maskedScore s (maskVal idx))
              ((List.replicate k (zvec a.hidden_size)).map
                (fun nm => dotQ (wma.apply nm) (zvec a.hidden_size)))
              (List.replicate k 0)))
            (List.replicate k (zvec a.hidden_size))) = zvec a.hidden_size :=
          fun wma => vsum_zipWith_smulQ_zvec _ _ _
        rw [List.map_congr_left (fun wma _ => hone wma), List.map_const']
        show (List.replicate w.W_ma.length
          (List.replicate a.hidden_size (0 : ℚ))).flatten = _
        rw [List.flatten_replicate_replicate]
        rfl
      rw [hhead, Linear.apply_zvec w.W_h a.hidden_size _ hhb hhw]
    rw [List.getElem?_zipWith', hb0, hAgg]
    simp only [Option.map_some', Option.some_bind]
    rw [vadd_zvec, vmap_zvec p.act hact]
  · simp only [hma, Bool.false_eq_true, if_false]
    have hAgg : (((gather a.hidden_size st.1 g.bgraph).map
        (fun gs => vsum a.hidden_size gs)).map w.W_h.apply)[0]? =
          some (zvec a.hidden_size) := by
      rw [List.getElem?_map, List.getElem?_map, hnei0]
      simp only [Option.map_some']
      rw [vsum_replicate_zvec, Linear.apply_zvec w.W_h a.hidden_size _ hhb hhw]
    rw [List.getElem?_zipWith', hb0, hAgg]
    simp only [Option.map_some', Option.some_bind]
    rw [vadd_zvec, vmap_zvec p.act hact]

/-- C6 amended: in every configuration without master node, global attention
or layer norm and with zero biases on `W_i` and `W_h` (the `args.bias = False`
setting; message attention is still allowed), an activation fixing zero and a
zero padding feature row keep the index-0 message at the zero vector after
initialization and after every message-passing round. -/
theorem claim_C6_amended (a : Args) (w : Weights) (p : Prims) (g : BatchGraph)
    (hmn : a.master_node = false) (hga : a.global_attention = false)
    (hln : a.layer_norm = false)
    (hib : w.W_i.bias = zvec a.hidden_size)
    (hiw : w.W_i.weight.length = a.hidden_size)
    (hhb : w.W_h.bias = zvec a.hidden_size)
    (hhw : w.W_h.weight.length = a.hidden_size)
    (hact : p.act 0 = 0)
    (nb k : ℕ) (hf0 : g.fbonds[0]? = some (zvec nb))
    (hg0 : g.bgraph[0]? = some (List.replicate k 0)) (t : ℕ) :
    ((roundStep a w p g (g.fbonds.map w.W_i.apply))^[t]
        (initialMessage w p g, none)).1[0]? = some (zvec a.hidden_size) := by
  have hbin : (g.fbonds.map w.W_i.apply)[0]? = some (zvec a.hidden_size) := by
    rw [List.getElem?_map, hf0, Option.map_some',
      Linear.apply_zvec w.W_i a.hidden_size nb hib hiw]
  induction t with
  | zero =>
    show (initialMessage w p g)[0]? = some (zvec a.hidden_size)
    rw [initialMessage, List.getElem?_map, hbin, Option.map_some',
      vmap_zvec p.act hact]
  | succ t ih =>
    rw [Function.iterate_succ_apply']
    exact roundStep_zero_preserved a w p g _ _ hmn hga hln hhb hhw hact k hg0
      hbin ih

/-- witness for the amended C6 at the concrete one-bond batch, two rounds. -/
theorem claim_C6_amended_witness :
    (plainArgs 1 3).master_node = false ∧ w1.W_i.bias = zvec 1 ∧
    pEval.act 0 = 0 ∧ gOneBond.fbonds[0]? = some (zvec 1) ∧
    ((roundStep (plainArgs 1 3) w1 pEval gOneBond
        (gOneBond.fbonds.map w1.W_i.apply))^[2]
      (initialMessage w1 pEval gOneBond, none)).1[0]? = some (zvec 1) :=
  ⟨rfl, rfl, by with_unfolding_all decide, by with_unfolding_all rfl,
   claim_C6_amended (plainArgs 1 3) w1 pEval gOneBond rfl rfl rfl rfl rfl rfl
     rfl (by with_unfolding_all decide) 1 1 (by with_unfolding_all rfl)
     (by with_unfolding_all rfl) 2⟩

/-- in a tiling, every molecule's start index is at least the base index. -/
theorem Tiles.start_le {n : ℕ} {scope : List (ℕ × ℕ)} (hT : Tiles n scope)
    {s l : ℕ} : (s, l) ∈ scope → n ≤ s := by
  induction hT with
  | nil => intro hmem; simp at hmem
  | cons m l0 rest hrest ih =>
    intro hmem
    rcases List.mem_cons.mp hmem with he | hm
    · rw [Prod.mk.injEq] at he
      omega
    · exact le_trans (Nat.le_add_right m l0) (ih hm)

/-- index arithmetic of the per-molecule blocks concatenated into
`master_state`: under the tiling invariant, entry `s + k - n` of the flattened
blocks is molecule `(s, l)`'s mean row, for every `k < l`. -/
theorem masterBlocks_getD (h n : ℕ) (neiMsg : List Vec)
    (scope : List (ℕ × ℕ)) (hT : Tiles n scope) (s l k : ℕ) :
    (s, l) ∈ scope → k < l →
    ((scope.map (fun sl =>
        if sl.2 = 0 then []
        else List.replicate sl.2
          ((vsum h ((neiMsg.drop sl.1).take sl.2)).map
            (fun x => x / (sl.2 : ℚ))))).flatten).getD (s + k - n) (zvec h) =
      (vsum h ((neiMsg.drop s).take l)).map (fun x => x / (l : ℚ)) := by
  induction hT with
  | nil => intro hmem _; simp at hmem
  | cons m l0 rest hrest ih =>
    intro hmem hk
    rcases List.mem_cons.mp hmem with he | hm
    · rw [Prod.mk.injEq] at he
      have hs : s = m := he.1
      have hl : l = l0 := he.2
      subst hs
      subst hl
      have hl0 : ¬(l = 0) := by omega
      simp only [List.map_cons, List.flatten_cons, if_neg hl0]
      rw [show s + k - s = k by omega,
        List.getD_append _ _ _ _ (by rw [List.length_replicate]; omega)]
      simp [List.getD_eq_getElem?_getD, List.getElem?_replicate_of_lt hk]
    · have hsge : m + l0 ≤ s := Tiles.start_le hrest hm
      have hblen : (if l0 = 0 then ([] : List Vec)
          else List.replicate l0 ((vsum h ((neiMsg.drop m).take l0)).map
            (fun x => x / (l0 : ℚ)))).length = l0 := by
        by_cases hz : l0 = 0 <;> simp [hz]
      simp only [List.map_cons, List.flatten_cons]
      rw [List.getD_append_right _ _ _ _ (by rw [hblen]; omega), hblen,
        show s + k - m - l0 = s + k - (m + l0) by omega]
      exact ih hm hk

/-- C7 fails on the code: the code averages `nei_message` (the `W_h`-projected
aggregated neighbor term), not the bond messages.  With `W_h = 0` the code's
master rows are all zero while the claim's mean-of-messages rows are not, and
the resulting round outputs differ on a concrete batch. -/
theorem claim_C7_counterexample :
    roundStep argsC7 w1 pEval gC7 (gC7.fbonds.map w1.W_i.apply)
        (initialMessage w1 pEval gC7, none) ≠
      roundStepClaimMaster argsC7 w1 pEval gC7 (gC7.fbonds.map w1.W_i.apply)
        (initialMessage w1 pEval gC7, none) := by
  with_unfolding_all decide

/-- C7 amended: the per-molecule mean is taken of `nei_message` (the
aggregated-and-projected neighbor term), not of the bond messages; molecules
with zero bonds are skipped (they own no rows), row 0 holds the cached zero
vector for the padding bond, and — given the packing invariant that bond
scopes tile the indices from 1 — bond `s + k` of molecule `(s, l)` receives
exactly its own molecule's mean row. -/
theorem claim_C7_amended (h : ℕ) (neiMsg : List Vec) (bscope : List (ℕ × ℕ))
    (hT : Tiles 1 bscope) (s l k : ℕ) (hmem : (s, l) ∈ bscope) (hk : k < l) :
    (masterRows h neiMsg bscope).getD 0 (zvec h) = zvec h ∧
    (masterRows h neiMsg bscope).getD (s + k) (zvec h) =
      (vsum h ((neiMsg.drop s).take l)).map (fun x => x / (l : ℚ)) := by
  constructor
  · rfl
  · have hs1 : 1 ≤ s := Tiles.start_le hT hmem
    rw [masterRows, show s + k = (s + k - 1) + 1 by omega, List.getD_cons_succ]
    exact masterBlocks_getD h 1 neiMsg bscope hT s l k hmem hk

/-- witness for the amended C7 on a concrete two-bond molecule. -/
theorem claim_C7_amended_witness :
    Tiles 1 [(1, 2)] ∧ ((1 : ℕ), (2 : ℕ)) ∈ [((1 : ℕ), (2 : ℕ))] ∧ 1 < 2 ∧
    (masterRows 1 [[0], [5], [7]] [(1, 2)]).getD 0 (zvec 1) = zvec 1 ∧
    (masterRows 1 [[0], [5], [7]] [(1, 2)]).getD (1 + 1) (zvec 1) =
      (vsum 1 (([[0], [5], [7]].drop 1).take 2)).map (fun x => x / (2 : ℚ)) := by
  have hT : Tiles 1 [(1, 2)] := Tiles.cons 1 2 [] (Tiles.nil 3)
  have h := claim_C7_amended 1 [[0], [5], [7]] [(1, 2)] hT 1 2 1
    (List.mem_singleton.mpr rfl) (by omega)
  exact ⟨hT, List.mem_singleton.mpr rfl, by omega, h.1, h.2⟩

/-- with `tanh 0 = 0` and square gate matrices, the bias-free LSTM step fixes
the zero input: `o ⊙ tanh(f ⊙ 0 + i ⊙ tanh(W_g · 0)) = 0`, whatever the
sigmoid values. -/
theorem lstmStep_zvec (h : ℕ) (w : Weights) (p : Prims) (hth : p.th 0 = 0)
    (hi : w.lstm_Wi.length = h) (hf : w.lstm_Wf.length = h)
    (hg : w.lstm_Wg.length = h) (ho : w.lstm_Wo.length = h) :
    lstmStep h w p (zvec h) = zvec h := by
  have hmat : ∀ M : Mat, matApply M (zvec h) = zvec M.length := by
    intro M
    rw [matApply, List.map_congr_left (fun r _ => dotQ_zvec r h),
      List.map_const']
    rfl
  have hrep : ∀ f : ℚ → ℚ, vmap f (zvec h) = List.replicate h (f 0) := by
    intro f
    rw [vmap, zvec, List.map_replicate]
  have hvmul : ∀ c : ℚ, vmul (List.replicate h c) (zvec h) = zvec h := by
    intro c
    rw [vmul, zvec, List.zipWith_replicate']
    simp [zvec]
  have hgate : vmap p.th (matApply w.lstm_Wg (zvec h)) = zvec h := by
    rw [hmat, hg, hrep, hth]
    rfl
  simp only [lstmStep, hmat, hi, hf, hg, ho, hgate, hrep]
  rw [hth, show List.replicate h (0 : ℚ) = zvec h from rfl, hvmul, vadd_zvec,
    hrep p.th, hth, show List.replicate h (0 : ℚ) = zvec h from rfl, hvmul]

/-- when `master_state` has been assigned, the master-as-output `mol_vecs`
loop returns one row per molecule: the cached zero vector for empty molecules
and `master_state[start]` otherwise. -/
theorem masterOutVecs_some (h : ℕ) (ms : List Vec) (scope : List (ℕ × ℕ)) :
    masterOutVecs h (some ms) scope =
      .ok (scope.map (fun sl =>
        if sl.2 = 0 then zvec h else ms.getD sl.1 (zvec h))) := by
  induction scope with
  | nil => rfl
  | cons sl rest ih =>
    by_cases hz : sl.2 = 0 <;> simp [masterOutVecs, hz, ih, Except.map]

/-- when the master aggregator is on, every round assigns `master_state`. -/
theorem roundStep_snd_isSome (a : Args) (w : Weights) (p : Prims)
    (g : BatchGraph) (binput : List Vec) (st : List Vec × Option (List Vec))
    (hm : a.master_node = true) :
    ((roundStep a w p g binput st).2).isSome = true := by
  simp [roundStep, hm]

/-- with the master aggregator on and depth at least 2, the loop leaves
`master_state` assigned. -/
theorem loopState_snd_isSome (a : Args) (w : Weights) (p : Prims)
    (g : BatchGraph) (hm : a.master_node = true) (hd : 2 ≤ a.depth) :
    ((loopState a w p g).2).isSome = true := by
  obtain ⟨n, hn⟩ : ∃ n, a.depth - 1 = n + 1 := ⟨a.depth - 2, by omega⟩
  rw [loopState, hn, Function.iterate_succ_apply']
  exact roundStep_snd_isSome a w p g _ _ hm

/-- iterating the set2set step at least once drives the row of a molecule
whose memory is all zero (and mask all zero) to the zero vector: its attended
input is zero whatever the attention weights, and the bias-free LSTM fixes
zero. -/
theorem set2set_iter_empty (h : ℕ) (w : Weights) (p : Prims)
    (memMask : List (List Vec × List ℚ)) (m maxA : ℕ)
    (hth : p.th 0 = 0) (hi : w.lstm_Wi.length = h) (hf : w.lstm_Wf.length = h)
    (hg : w.lstm_Wg.length = h) (ho : w.lstm_Wo.length = h)
    (hmm : memMask[m]? =
      some (List.replicate maxA (zvec h), List.replicate maxA (0 : ℚ)))
    (query : List Vec) (hq : m < query.length) (n : ℕ) (hn : 1 ≤ n) :
    ((set2setStep h w p memMask)^[n] query)[m]? = some (zvec h) := by
  have hmlt : m < memMask.length := by
    rcases List.getElem?_eq_some_iff.mp hmm with ⟨hlt, _⟩
    exact hlt
  have hlen : ∀ k : ℕ, m < ((set2setStep h w p memMask)^[k] query).length := by
    intro k
    induction k with
    | zero => simpa using hq
    | succ k ih =>
      rw [Function.iterate_succ_apply', set2setStep, List.length_zipWith]
      omega
  obtain ⟨n', rfl⟩ : ∃ n', n = n' + 1 := ⟨n - 1, by omega⟩
  rw [Function.iterate_succ_apply']
  obtain ⟨qm, hqm⟩ : ∃ x, ((set2setStep h w p memMask)^[n'] query)[m]? =
      some x :=
    ⟨_, List.getElem?_eq_getElem (hlen n')⟩
  rw [set2setStep, List.getElem?_zipWith', hmm, hqm]
  simp only [Option.map_some', Option.some_bind]
  rw [vsum_zipWith_smulQ_zvec, lstmStep_zvec h w p hth hi hf hg ho]

/-- the set2set readout maps a zero-atom molecule's row to the zero vector
(with at least one iteration, square LSTM gates and `tanh 0 = 0`). -/
theorem set2set_empty_row (a : Args) (w : Weights) (p : Prims)
    (ascope : List (ℕ × ℕ)) (atomHiddens : List Vec) (m s : ℕ)
    (hiters : 1 ≤ a.set2set_iters) (hth : p.th 0 = 0)
    (hi : w.lstm_Wi.length = a.hidden_size)
    (hf : w.lstm_Wf.length = a.hidden_size)
    (hg : w.lstm_Wg.length = a.hidden_size)
    (ho : w.lstm_Wo.length = a.hidden_size)
    (hms : ascope[m]? = some (s, 0)) :
    ∃ out, set2setReadout a w p ascope atomHiddens = .ok out ∧
      out[m]? = some (zvec a.hidden_size) := by
  have hmlt : m < ascope.length := by
    rcases List.getElem?_eq_some_iff.mp hms with ⟨hlt, _⟩
    exact hlt
  have hne : ascope ≠ [] := by
    intro hnil
    rw [hnil] at hms
    simp at hms
  obtain ⟨maxA, hmax⟩ : ∃ v, (ascope.map (fun sl => sl.2)).max? = some v := by
    cases hmx : (ascope.map (fun sl => sl.2)).max? with
    | none =>
      exact absurd (List.map_eq_nil_iff.mp (List.max?_eq_none_iff.mp hmx)) hne
    | some v => exact ⟨v, rfl⟩
  have hmem0 : (ascope.map (fun sl => (List.range maxA).map (fun j =>
      if j < sl.2 then atomHiddens.getD (sl.1 + j) (zvec a.hidden_size)
      else zvec a.hidden_size)))[m]? =
        some (List.replicate maxA (zvec a.hidden_size)) := by
    rw [List.getElem?_map, hms, Option.map_some']
    simp [List.map_const']
  have hmask0 : (ascope.map (fun sl => (List.range maxA).map (fun j =>
      if j < sl.2 then (1 : ℚ) else 0)))[m]? =
        some (List.replicate maxA (0 : ℚ)) := by
    rw [List.getElem?_map, hms, Option.map_some']
    simp [List.map_const']
  simp only [set2setReadout, hmax]
  refine ⟨_, rfl, ?_⟩
  refine set2set_iter_empty a.hidden_size w p _ m maxA hth hi hf hg ho
    ((@List.getElem?_zip_eq_some _ _ _ _
      (List.replicate maxA (zvec a.hidden_size),
        List.replicate maxA (0 : ℚ)) m).mpr ⟨hmem0, hmask0⟩)
    _ (by rw [List.length_map]; exact hmlt) _ hiters

/-- C3 fails as stated: the set2set readout (lines 219-258) has no
per-molecule detection and no explicit cached-zero-vector branch, and in the
configuration with `set2set_iters = 0` — which the claim's "every readout
variant" covers — the iteration loop never runs and `mol_vecs` is the initial
`torch.ones` query, so a zero-atom molecule's output row is the all-ones
vector, not the cached zero vector. -/
theorem claim_C3_counterexample :
    gNoBond.ascope[0]? = some (1, 0) ∧
    mpnForward argsC3z w1 pEval gNoBond = .ok [[1]] ∧
    ([1] : Vec) ≠ zvec 1 :=
  ⟨rfl, by with_unfolding_all rfl, by with_unfolding_all decide⟩

/-- C3 amended: for the mean-family and master-passthrough readouts, a
zero-atom/zero-bond molecule is detected per-molecule and its output row
substituted by the explicit cached-zero-vector branch, with no division by
the molecule's zero size (the mean division sits under the `size == 0`
guard).  The set2set readout has no such branch: with at least one iteration
the zero-atom row still equals the zero vector, arithmetically — the
molecule's zero-padded memory rows make its attended LSTM input zero whatever
the attention weights, and the bias-free LSTM (square gates, `tanh 0 = 0`)
fixes zero — while with zero iterations the row is the all-ones initial
query instead. -/
theorem claim_C3 :
    (∀ (a : Args) (w : Weights) (p : Prims) (g : BatchGraph) (m s : ℕ),
      a.master_node = true → a.use_master_as_output = true →
      a.hidden_size = a.master_dim → 2 ≤ a.depth →
      g.bscope[m]? = some (s, 0) →
      ∃ out, mpnForward a w p g = .ok out ∧
        out[m]? = some (zvec a.hidden_size)) ∧
    (∀ (a : Args) (w : Weights) (p : Prims) (g : BatchGraph) (m s : ℕ),
      (a.master_node && a.use_master_as_output) = false → a.set2set = false →
      g.ascope[m]? = some (s, 0) →
      ∃ out, mpnForward a w p g = .ok out ∧
        out[m]? = some (zvec a.hidden_size)) ∧
    (∀ (a : Args) (w : Weights) (p : Prims) (g : BatchGraph) (m s : ℕ),
      (a.master_node && a.use_master_as_output) = false → a.set2set = true →
      1 ≤ a.set2set_iters → p.th 0 = 0 →
      w.lstm_Wi.length = a.hidden_size → w.lstm_Wf.length = a.hidden_size →
      w.lstm_Wg.length = a.hidden_size → w.lstm_Wo.length = a.hidden_size →
      g.ascope[m]? = some (s, 0) →
      ∃ out, mpnForward a w p g = .ok out ∧
        out[m]? = some (zvec a.hidden_size)) := by
  refine ⟨?_, ?_, ?_⟩
  · intro a w p g m s hm hu hw hd hms
    obtain ⟨ms', hsome⟩ := Option.isSome_iff_exists.mp
      (loopState_snd_isSome a w p g hm hd)
    have hfwd : mpnForward a w p g =
        masterOutVecs a.hidden_size (loopState a w p g).2 g.bscope := by
      simp [mpnForward, hm, hu, hw]
    rw [hfwd, hsome, masterOutVecs_some]
    refine ⟨_, rfl, ?_⟩
    rw [List.getElem?_map, hms]
    simp
  · intro a w p g m s hb hs hms
    have hfwd : mpnForward a w p g = .ok (meanReadout a w p g.ascope
        (atomHiddensOf a w p g (loopState a w p g).1)) := by
      simp [mpnForward, hb, hs]
    rw [hfwd]
    refine ⟨_, rfl, ?_⟩
    simp only [meanReadout]
    rw [List.getElem?_map, hms]
    simp
  · intro a w p g m s hb hs hiters hth hi hf hg2 ho hms
    have hfwd : mpnForward a w p g = set2setReadout a w p g.ascope
        (atomHiddensOf a w p g (loopState a w p g).1) := by
      simp [mpnForward, hb, hs]
    rw [hfwd]
    exact set2set_empty_row a w p g.ascope _ m s hiters hth hi hf hg2 ho hms

/-- witness for C3: one zero-bond/zero-atom molecule under each of the
master-passthrough, mean-pooling and set2set readouts. -/
theorem claim_C3_witness :
    (2 ≤ argsC3a.depth ∧ gNoBond.bscope[0]? = some (1, 0) ∧
      ∃ out, mpnForward argsC3a w1 pEval gNoBond = .ok out ∧
        out[0]? = some (zvec 1)) ∧
    (gNoBond.ascope[0]? = some (1, 0) ∧
      ∃ out, mpnForward (plainArgs 1 1) w1 pEval gNoBond = .ok out ∧
        out[0]? = some (zvec 1)) ∧
    (1 ≤ argsC3c.set2set_iters ∧ pEval.th 0 = 0 ∧
      ∃ out, mpnForward argsC3c w1 pEval gNoBond = .ok out ∧
        out[0]? = some (zvec 1)) :=
  ⟨⟨by decide, rfl,
    claim_C3.1 argsC3a w1 pEval gNoBond 0 1 rfl rfl rfl (by decide) rfl⟩,
   ⟨rfl, claim_C3.2.1 (plainArgs 1 1) w1 pEval gNoBond 0 1 rfl rfl rfl⟩,
   ⟨by decide, rfl,
    claim_C3.2.2 argsC3c w1 pEval gNoBond 0 1 rfl rfl (by decide) rfl rfl rfl
      rfl rfl rfl⟩⟩

end Chemprop
